import Mathlib

/-!
Shallow embedding of the `s3multipart` command-line tool
(`src/s3multipart/cli.py`) for checking its natural-language
specification.

Python strings are modelled as `List Char` (Python strings are sequences
of Unicode code points, compared code point by code point).  The on-disk
JSON record `multipart.json` is modelled by the structure
`UploadSession`; presence or absence of the whole file is `Option
UploadSession`.  Each CLI command becomes a function from the current
store and an oracle describing the remote service's behaviour to a
`CmdResult` recording the new store, how the process terminated, how
many remote operations were performed, and the messages reported.
-/

/-- Python slice `s[1:-1]` on a string: drop the first and the last
character (empty result when the string has at most two characters).
This is `etag = resp['ETag'][1:-1]` at cli.py line 112. -/
def storedETag (e : List Char) : List Char :=
  (e.drop 1).dropLast

/-- Index of the last occurrence of `t` in the list, `none` when `t`
does not occur.  Models Python `str.rfind` (which returns `-1` for
"absent"). -/
def rfindIdx : List Char → Char → Option Nat
  | [], _ => none
  | c :: cs, t =>
    match rfindIdx cs t with
    | some j => some (j + 1)
    | none => if c = t then some 0 else none

/-- The `pathlib.PurePath.suffix` of a file name: the substring from
the last dot on, provided that dot is neither the first nor the last
character of the name; otherwise the empty string. -/
def pySuffix (name : List Char) : List Char :=
  match rfindIdx name '.' with
  | none => []
  | some i => if 0 < i ∧ i < name.length - 1 then name.drop i else []

/-- The filter at cli.py line 95: `re.match(r'\.[0-9]+', f.suffix)`.
`re.match` anchors only at the start of the string, so the test is
"the suffix begins with a dot followed by at least one ASCII digit";
characters after the first digit are not constrained. -/
def isPartName (name : List Char) : Bool :=
  match pySuffix name with
  | c1 :: c2 :: _ => c1 == '.' && c2.isDigit
  | _ => false

/-- Python `int` applied to a non-empty all-ASCII-digit string: its
base-10 value.  `none` models the `ValueError` raised on other inputs.
(Python's `int` also accepts surrounding whitespace, a sign, grouping
underscores and non-ASCII digits; none of those shapes arise from the
suffixes considered by the claims.) -/
def pyIntDigits (l : List Char) : Option Nat :=
  if l ≠ [] ∧ l.all Char.isDigit then
    some (l.foldl (fun a c => 10 * a + (c.toNat - 48)) 0)
  else
    none

/-- `int(part.suffix[1:])` at cli.py line 109: the part number derived
from a file name, `none` when `int` would raise. -/
def partNum? (name : List Char) : Option Nat :=
  pyIntDigits ((pySuffix name).drop 1)

/-- Lexicographic (code-point) comparison of two strings, the order
Python's `sorted` uses on the path names at cli.py line 95. -/
def lexLe : List Char → List Char → Bool
  | [], _ => true
  | _ :: _, [] => false
  | a :: as, b :: bs =>
    if a < b then true
    else if b < a then false
    else lexLe as bs

/-- Propositional form of `lexLe`, used as the sorting relation. -/
def LexLe (a b : List Char) : Prop :=
  lexLe a b = true

instance : DecidableRel LexLe :=
  fun a b => inferInstanceAs (Decidable (lexLe a b = true))

/-- The part resolution of `upload` (cli.py line 95):
`sorted([f for f in pathlib.Path(src).iterdir() if re.match(r'\.[0-9]+', f.suffix)])`.
The input is the directory listing (file names); the result is the
matching names sorted lexicographically (insertion sort is a stable
sort, like Python's). -/
def resolveParts (listing : List (List Char)) : List (List Char) :=
  List.insertionSort LexLe (listing.filter isPartName)

/-- One entry of the persisted `Parts` array: `{'ETag': …, 'PartNumber': …}`. -/
structure PartEntry where
  eTag : List Char
  partNumber : Nat
deriving DecidableEq

/-- The persisted `multipart.json` record.  `partsField` is the
optional `Parts` key: `init` stores the raw create-multipart-upload
response, which has no `Parts` key, so `partsField = none` until the
first append in `upload` creates it. -/
structure UploadSession where
  bucket : List Char
  key : List Char
  uploadId : List Char
  partsField : Option (List PartEntry)
deriving DecidableEq

/-- Session status as the spec derives it from file presence. -/
inductive SessionStatus where
  | NONE
  | ACTIVE
deriving DecidableEq

/-- Status of a store: `NONE` when no record file exists, `ACTIVE`
otherwise. -/
def statusOf : Option UploadSession → SessionStatus
  | none => SessionStatus.NONE
  | some _ => SessionStatus.ACTIVE

/-- Ways a command invocation can end: a normal return or `sys.exit`
with the given process exit code, or an unhandled Python exception
(which makes the interpreter exit with code 1). -/
inductive PyExn where
  | keyError
  | valueError
  | remoteError
deriving DecidableEq

inductive Termination where
  | normal (code : Nat)
  | exn (e : PyExn)
deriving DecidableEq

/-- The process exit code produced by a termination. -/
def Termination.exitCode : Termination → Nat
  | .normal c => c
  | .exn _ => 1

/-- A remote response that was actually delivered (as opposed to a
thrown error): its `ResponseMetadata.HTTPStatusCode` and the payload
that `json.dumps(resp, indent=2)` would print. -/
structure Resp where
  status : Nat
  payload : List Char
deriving DecidableEq

/-- Observable outcome of one CLI command invocation. -/
structure CmdResult where
  store : Option UploadSession
  term : Termination
  remoteCalls : Nat
  output : List (List Char)
deriving DecidableEq

/-- The fields of a successful `create_multipart_upload` response that
the rest of the program reads back. -/
structure InitResp where
  bucket : List Char
  key : List Char
  uploadId : List Char
deriving DecidableEq

/-- The record `init` writes: the wholesale remote response, which
contains no `Parts` key. -/
def initRecord (ir : InitResp) : UploadSession :=
  ⟨ir.bucket, ir.key, ir.uploadId, none⟩

def noActiveMsg : List Char :=
  "No active multipart upload in progress!".toList

def notDirMsg : List Char :=
  "Please pass in a folder containing the file parts".toList

def noPartsMsg (src : List Char) : List Char :=
  "Unable to find file parts in ".toList ++ src ++ "!".toList

def badHttpMsg : List Char :=
  "Bad HTTP response".toList

def startedMsg (bucket key : List Char) : List Char :=
  "Started multipart upload for s3://".toList ++ bucket ++ "/".toList ++ key

def abortedMsg (bucket key : List Char) : List Char :=
  "Aborted multipart upload for s3://".toList ++ bucket ++ "/".toList ++ key

def finalizedMsg (bucket key : List Char) : List Char :=
  "Finalized multipart upload for s3://".toList ++ bucket ++ "/".toList ++ key

/-- `init` (cli.py lines 64-75).  The remote call is made
unconditionally; on success the response is written to
`multipart.json` (overwriting any existing record), on a thrown error
the exception propagates and nothing is written. -/
def initCmd (bucket key : List Char) (store : Option UploadSession)
    (remote : Except Unit InitResp) : CmdResult :=
  match remote with
  | .error _ => ⟨store, .exn .remoteError, 1, []⟩
  | .ok ir => ⟨some (initRecord ir), .normal 0, 1, [startedMsg bucket key]⟩

/-- The per-part state-store append of `upload` (cli.py lines 113-117):
re-load the record, extend `Parts` (`data.get('Parts', []) + [entry]`),
re-save.  The stored eTag is `resp['ETag'][1:-1]`. -/
def uploadAppend (r : UploadSession) (n : Nat) (etagResp : List Char) : UploadSession :=
  { r with partsField := some (r.partsField.getD [] ++ [⟨storedETag etagResp, n⟩]) }

/-- Outcome of one `upload_part` remote call: a returned ETag string,
or a thrown error. -/
inductive StepEvent where
  | ok (etag : List Char)
  | err
deriving DecidableEq

/-- Result of running the per-part loop of `upload`: the record left
on disk, the number of `upload_part` calls made, and how the loop
ended. -/
structure UploadRun where
  disk : UploadSession
  calls : Nat
  term : Termination
deriving DecidableEq

/-- The per-part loop of `upload` (cli.py lines 107-117), transfer
outcomes supplied by the oracle `ev` (indexed by transfer order).  For
each part: derive the part number (`int` raising `ValueError` stops the
loop before any call for that part), call `upload_part` (a thrown error
stops the loop after that call), and on success durably append
`{ETag, PartNumber}` to the record before the next part begins.  The
`disk` component after processing a prefix of the parts is exactly the
on-disk state a crash at that point would leave behind. -/
def runParts (ev : Nat → StepEvent) : UploadSession → List (List Char) → Nat → UploadRun
  | r, [], _ => ⟨r, 0, .normal 0⟩
  | r, p :: ps, i =>
    match partNum? p with
    | none => ⟨r, 0, .exn .valueError⟩
    | some n =>
      match ev i with
      | .err => ⟨r, 1, .exn .remoteError⟩
      | .ok e =>
        let res := runParts ev (uploadAppend r n e) ps (i + 1)
        ⟨res.disk, res.calls + 1, res.term⟩

/-- `upload` (cli.py lines 78-117).  Precondition check (`check_multipart`),
then the directory check, part resolution, empty check, interactive
confirmation, then the transfer loop. -/
def uploadCmd (store : Option UploadSession) (src : List Char) (isDir : Bool)
    (listing : List (List Char)) (confirm : Bool) (ev : Nat → StepEvent) : CmdResult :=
  match store with
  | none => ⟨none, .normal 1, 0, [noActiveMsg]⟩
  | some r =>
    if isDir then
      let parts := resolveParts listing
      if parts.isEmpty then ⟨some r, .normal 1, 0, [noPartsMsg src]⟩
      else if confirm then
        let run := runParts ev r parts 0
        ⟨some run.disk, run.term, run.calls, []⟩
      else ⟨some r, .normal 0, 0, []⟩
    else ⟨some r, .normal 1, 0, [notDirMsg]⟩

/-- `abort` (cli.py lines 120-138).  On HTTP 204 the record file is
removed; on any other status the record is untouched, `Bad HTTP
response` and the response payload are printed, and the function
returns normally (exit code 0). -/
def abortCmd (store : Option UploadSession) (resp : Resp) : CmdResult :=
  match store with
  | none => ⟨none, .normal 1, 0, [noActiveMsg]⟩
  | some r =>
    if resp.status = 204 then
      ⟨none, .normal 0, 1, [abortedMsg r.bucket r.key]⟩
    else
      ⟨some r, .normal 0, 1, [badHttpMsg, resp.payload]⟩

/-- `finalize` (cli.py lines 140-159).  Reading `data['Parts']` (line
152) raises `KeyError` when the record has no `Parts` key, before the
remote complete call.  Otherwise, on HTTP 200 the record file is
removed; on any other status the record is untouched, the payload is
printed, and the function returns normally (exit code 0). -/
def finalizeCmd (store : Option UploadSession) (resp : Resp) : CmdResult :=
  match store with
  | none => ⟨none, .normal 1, 0, [noActiveMsg]⟩
  | some r =>
    match r.partsField with
    | none => ⟨some r, .exn .keyError, 0, []⟩
    | some _ =>
      if resp.status = 200 then
        ⟨none, .normal 0, 1, [finalizedMsg r.bucket r.key]⟩
      else
        ⟨some r, .normal 0, 1, [badHttpMsg, resp.payload]⟩

/-- A part file name with the given stem and a `w`-digit zero-padded
numeric extension: `stem ++ "." ++ digits`. -/
def padNum : Nat → Nat → List Char
  | 0, _ => []
  | w + 1, n => Nat.digitChar (n / 10 ^ w) :: padNum w (n % 10 ^ w)

def partName (stem : List Char) (w n : Nat) : List Char :=
  stem ++ '.' :: padNum w n

/-- Modelled from the spec: "eTag with any wrapping quote characters
stripped" — remove a leading and a trailing quote when both are
present, otherwise leave the string unchanged.  Stated only to compare
with the source's `storedETag`. -/
def specStripQuotes (e : List Char) : List Char :=
  if 2 ≤ e.length ∧ e.head? = some '"' ∧ e.getLast? = some '"' then
    (e.drop 1).dropLast
  else
    e

theorem rfindIdx_eq_none (l : List Char) (t : Char) (h : t ∉ l) : rfindIdx l t = none := by
  induction l with
  | nil => rfl
  | cons c cs ih =>
    have hc : ¬ c = t := fun hct => h (hct ▸ List.mem_cons_self c cs)
    have hcs : t ∉ cs := fun hm => h (List.mem_cons_of_mem c hm)
    rw [rfindIdx, ih hcs, if_neg hc]

theorem rfindIdx_stem_dot (stem ds : List Char) (hds : ('.' : Char) ∉ ds) :
    rfindIdx (stem ++ '.' :: ds) '.' = some stem.length := by
  induction stem with
  | nil =>
    rw [List.nil_append, rfindIdx, rfindIdx_eq_none ds '.' hds]
    simp
  | cons c cs ih =>
    rw [List.cons_append, rfindIdx, ih]
    simp

theorem pySuffix_partName (stem ds : List Char) (hstem : stem ≠ [])
    (hds : ds ≠ []) (hdot : ('.' : Char) ∉ ds) :
    pySuffix (stem ++ '.' :: ds) = '.' :: ds := by
  rw [pySuffix, rfindIdx_stem_dot stem ds hdot]
  have h1 : 0 < stem.length := List.length_pos.mpr hstem
  have h2 : stem.length < (stem ++ '.' :: ds).length - 1 := by
    rw [List.length_append, List.length_cons]
    have : 0 < ds.length := List.length_pos.mpr hds
    omega
  show (if 0 < stem.length ∧ stem.length < (stem ++ '.' :: ds).length - 1 then
      List.drop stem.length (stem ++ '.' :: ds) else []) = '.' :: ds
  rw [if_pos ⟨h1, h2⟩, List.drop_left]

theorem lexLe_cons (a b : Char) (as bs : List Char) :
    lexLe (a :: as) (b :: bs)
      = if a < b then true else if b < a then false else lexLe as bs := rfl

theorem digitChar_isDigit (d : Nat) (h : d < 10) : (Nat.digitChar d).isDigit = true := by
  interval_cases d <;> decide

theorem digitChar_toNat (d : Nat) (h : d < 10) : (Nat.digitChar d).toNat = 48 + d := by
  interval_cases d <;> decide

theorem digitChar_lt_iff (a b : Nat) (ha : a < 10) (hb : b < 10) :
    Nat.digitChar a < Nat.digitChar b ↔ a < b := by
  interval_cases a <;> interval_cases b <;> decide

theorem padNum_length (w n : Nat) : (padNum w n).length = w := by
  induction w generalizing n with
  | zero => rfl
  | succ w ih => simp [padNum, ih]

theorem div_pow_lt_ten (w n : Nat) (h : n < 10 ^ (w + 1)) : n / 10 ^ w < 10 := by
  rw [Nat.div_lt_iff_lt_mul (Nat.pos_pow_of_pos w (by norm_num))]
  calc n < 10 ^ (w + 1) := h
    _ = 10 * 10 ^ w := by ring

theorem padNum_digits (w n : Nat) (h : n < 10 ^ w) :
    ∀ c ∈ padNum w n, c.isDigit = true := by
  induction w generalizing n with
  | zero => intro c hc; simp [padNum] at hc
  | succ w ih =>
    intro c hc
    rw [padNum] at hc
    rcases List.mem_cons.mp hc with rfl | hc
    · exact digitChar_isDigit _ (div_pow_lt_ten w n h)
    · exact ih (n % 10 ^ w) (Nat.mod_lt _ (Nat.pos_pow_of_pos w (by norm_num))) c hc

theorem padNum_ne_nil (w n : Nat) (hw : 0 < w) : padNum w n ≠ [] := by
  cases w with
  | zero => omega
  | succ w => simp [padNum]

theorem dot_not_mem_padNum (w n : Nat) (h : n < 10 ^ w) : ('.' : Char) ∉ padNum w n := by
  intro hmem
  have := padNum_digits w n h '.' hmem
  simp at this

theorem foldl_padNum (w : Nat) : ∀ n acc : Nat, n < 10 ^ w →
    (padNum w n).foldl (fun a c => 10 * a + (c.toNat - 48)) acc = acc * 10 ^ w + n := by
  induction w with
  | zero =>
    intro n acc h
    have hn : n = 0 := by simpa using Nat.lt_one_iff.mp (by simpa using h)
    subst hn
    simp [padNum]
  | succ w ih =>
    intro n acc h
    rw [padNum, List.foldl_cons, digitChar_toNat _ (div_pow_lt_ten w n h),
      ih (n % 10 ^ w) _ (Nat.mod_lt _ (Nat.pos_pow_of_pos w (by norm_num)))]
    have hdm := Nat.div_add_mod n (10 ^ w)
    calc (10 * acc + (48 + n / 10 ^ w - 48)) * 10 ^ w + n % 10 ^ w
        = acc * (10 ^ w * 10) + (10 ^ w * (n / 10 ^ w) + n % 10 ^ w) := by
          rw [Nat.add_sub_cancel_left]; ring
      _ = acc * 10 ^ (w + 1) + n := by rw [hdm, pow_succ]

theorem lexLe_padNum_iff (w : Nat) : ∀ a b : Nat, a < 10 ^ w → b < 10 ^ w →
    (lexLe (padNum w a) (padNum w b) = true ↔ a ≤ b) := by
  induction w with
  | zero =>
    intro a b ha hb
    constructor
    · intro _
      have : a = 0 := by simpa using Nat.lt_one_iff.mp (by simpa using ha)
      omega
    · intro _; rfl
  | succ w ih =>
    intro a b ha hb
    have hpos : 0 < 10 ^ w := Nat.pos_pow_of_pos w (by norm_num)
    have hda : a / 10 ^ w < 10 := div_pow_lt_ten w a ha
    have hdb : b / 10 ^ w < 10 := div_pow_lt_ten w b hb
    have hma : a % 10 ^ w < 10 ^ w := Nat.mod_lt _ hpos
    have hmb : b % 10 ^ w < 10 ^ w := Nat.mod_lt _ hpos
    have hdma := Nat.div_add_mod a (10 ^ w)
    have hdmb := Nat.div_add_mod b (10 ^ w)
    rw [padNum, padNum, lexLe_cons]
    rcases Nat.lt_trichotomy (a / 10 ^ w) (b / 10 ^ w) with h | h | h
    · rw [if_pos ((digitChar_lt_iff _ _ hda hdb).mpr h)]
      have h1 : 10 ^ w * (a / 10 ^ w) + 10 ^ w ≤ 10 ^ w * (b / 10 ^ w) := by
        have h2 : 10 ^ w * (a / 10 ^ w + 1) ≤ 10 ^ w * (b / 10 ^ w) :=
          Nat.mul_le_mul_left _ h
        rwa [Nat.mul_succ] at h2
      constructor
      · intro _; omega
      · intro _; rfl
    · rw [if_neg (by rw [digitChar_lt_iff _ _ hda hdb]; omega),
        if_neg (by rw [digitChar_lt_iff _ _ hdb hda]; omega)]
      rw [ih (a % 10 ^ w) (b % 10 ^ w) hma hmb]
      rw [h] at hdma
      omega
    · rw [if_neg (by rw [digitChar_lt_iff _ _ hda hdb]; omega),
        if_pos ((digitChar_lt_iff _ _ hdb hda).mpr h)]
      have h1 : 10 ^ w * (b / 10 ^ w) + 10 ^ w ≤ 10 ^ w * (a / 10 ^ w) := by
        have h2 : 10 ^ w * (b / 10 ^ w + 1) ≤ 10 ^ w * (a / 10 ^ w) :=
          Nat.mul_le_mul_left _ h
        rwa [Nat.mul_succ] at h2
      constructor
      · intro hfalse; exact absurd hfalse (by simp)
      · intro hle; omega


theorem lexLe_total : ∀ a b : List Char, lexLe a b = true ∨ lexLe b a = true
  | [], _ => Or.inl rfl
  | _ :: _, [] => Or.inr rfl
  | a :: as, b :: bs => by
    rcases lt_trichotomy a b with h | h | h
    · left
      rw [lexLe_cons, if_pos h]
    · subst h
      rcases lexLe_total as bs with ih | ih
      · left
        rw [lexLe_cons, if_neg (lt_irrefl a), if_neg (lt_irrefl a)]
        exact ih
      · right
        rw [lexLe_cons, if_neg (lt_irrefl a), if_neg (lt_irrefl a)]
        exact ih
    · right
      rw [lexLe_cons, if_pos h]

theorem lexLe_trans : ∀ a b c : List Char,
    lexLe a b = true → lexLe b c = true → lexLe a c = true
  | [], _, _, _, _ => rfl
  | _ :: _, [], _, hab, _ => by simp [lexLe] at hab
  | _ :: _, _ :: _, [], _, hbc => by simp [lexLe] at hbc
  | a :: as, b :: bs, c :: cs, hab, hbc => by
    rw [lexLe_cons] at hab hbc ⊢
    rcases lt_trichotomy a b with h1 | h1 | h1
    · rcases lt_trichotomy b c with h2 | h2 | h2
      · rw [if_pos (lt_trans h1 h2)]
      · subst h2
        rw [if_pos h1]
      · rw [if_neg (asymm h2), if_pos h2] at hbc
        exact absurd hbc (by simp)
    · subst h1
      rcases lt_trichotomy a c with h2 | h2 | h2
      · rw [if_pos h2]
      · subst h2
        rw [if_neg (lt_irrefl a), if_neg (lt_irrefl a)] at hab hbc ⊢
        exact lexLe_trans as bs cs hab hbc
      · rw [if_neg (asymm h2), if_pos h2] at hbc
        exact absurd hbc (by simp)
    · rw [if_neg (asymm h1), if_pos h1] at hab
      exact absurd hab (by simp)

theorem lexLe_antisymm : ∀ a b : List Char,
    lexLe a b = true → lexLe b a = true → a = b
  | [], [], _, _ => rfl
  | [], _ :: _, _, hba => by simp [lexLe] at hba
  | _ :: _, [], hab, _ => by simp [lexLe] at hab
  | a :: as, b :: bs, hab, hba => by
    rw [lexLe_cons] at hab hba
    rcases lt_trichotomy a b with h | h | h
    · rw [if_neg (asymm h), if_pos h] at hba
      exact absurd hba (by simp)
    · subst h
      rw [if_neg (lt_irrefl a), if_neg (lt_irrefl a)] at hab hba
      rw [lexLe_antisymm as bs hab hba]
    · rw [if_neg (asymm h), if_pos h] at hab
      exact absurd hab (by simp)

theorem lexLe_append (p x y : List Char) : lexLe (p ++ x) (p ++ y) = lexLe x y := by
  induction p with
  | nil => rfl
  | cons a as ih =>
    rw [List.cons_append, List.cons_append, lexLe_cons,
      if_neg (lt_irrefl a), if_neg (lt_irrefl a), ih]

theorem isPartName_partName (stem : List Char) (w n : Nat) (hstem : stem ≠ [])
    (hw : 0 < w) (hn : n < 10 ^ w) : isPartName (partName stem w n) = true := by
  rw [isPartName, partName,
    pySuffix_partName stem (padNum w n) hstem (padNum_ne_nil w n hw)
      (dot_not_mem_padNum w n hn)]
  cases hp : padNum w n with
  | nil => exact absurd hp (padNum_ne_nil w n hw)
  | cons c cs =>
    have hc : c.isDigit = true :=
      padNum_digits w n hn c (hp ▸ List.mem_cons_self c cs)
    simp [hc]

theorem partNum_partName (stem : List Char) (w n : Nat) (hstem : stem ≠ [])
    (hw : 0 < w) (hn : n < 10 ^ w) : partNum? (partName stem w n) = some n := by
  rw [partNum?, partName,
    pySuffix_partName stem (padNum w n) hstem (padNum_ne_nil w n hw)
      (dot_not_mem_padNum w n hn),
    List.drop_one, List.tail_cons, pyIntDigits]
  rw [if_pos ⟨padNum_ne_nil w n hw, List.all_eq_true.mpr (fun c hc => padNum_digits w n hn c hc)⟩]
  rw [foldl_padNum w n 0 hn]
  simp

theorem lexLe_partName (stem : List Char) (w a b : Nat) (ha : a < 10 ^ w)
    (hb : b < 10 ^ w) (hab : a ≤ b) :
    lexLe (partName stem w a) (partName stem w b) = true := by
  have h1 : partName stem w a = (stem ++ ['.']) ++ padNum w a := by
    rw [partName, List.append_assoc]; rfl
  have h2 : partName stem w b = (stem ++ ['.']) ++ padNum w b := by
    rw [partName, List.append_assoc]; rfl
  rw [h1, h2, lexLe_append]
  exact (lexLe_padNum_iff w a b ha hb).mpr hab

/-- Claim C3, amended: the resolver sorts by full file name, so numeric order
is only guaranteed when the part files also share a common stem.  When the
filter-selected entries of the directory are exactly the names with stem
`stem` and `w`-digit zero-padded numeric extensions for the distinct numbers
`nums`, `resolveParts` returns exactly those names, in ascending numeric
order, and each entry's part number is its extension parsed as a base-10
integer. -/
theorem resolver_padded_common_stem_sorted
    (listing : List (List Char)) (stem : List Char) (w : Nat) (nums : List Nat)
    (hstem : stem ≠ []) (hw : 0 < w)
    (hbound : ∀ n ∈ nums, n < 10 ^ w) (hnodup : nums.Nodup)
    (hfilter : listing.filter isPartName = nums.map (partName stem w)) :
    resolveParts listing = (List.insertionSort (· ≤ ·) nums).map (partName stem w)
    ∧ (resolveParts listing).length = nums.length
    ∧ (resolveParts listing).map partNum? = (List.insertionSort (· ≤ ·) nums).map some
    ∧ List.Pairwise (· < ·) (List.insertionSort (· ≤ ·) nums) := by
  haveI hTot : IsTotal (List Char) LexLe := ⟨lexLe_total⟩
  haveI hTrans : IsTrans (List Char) LexLe := ⟨lexLe_trans⟩
  haveI hAnti : IsAntisymm (List Char) LexLe := ⟨lexLe_antisymm⟩
  have hmemS : ∀ n ∈ List.insertionSort (· ≤ ·) nums, n < 10 ^ w := by
    intro n hn
    exact hbound n ((List.perm_insertionSort (· ≤ ·) nums).subset hn)
  have hsortedNat : List.Sorted (· ≤ ·) (List.insertionSort (· ≤ ·) nums) :=
    List.sorted_insertionSort (· ≤ ·) nums
  have hmain : resolveParts listing
      = (List.insertionSort (· ≤ ·) nums).map (partName stem w) := by
    have hperm : List.Perm (resolveParts listing)
        ((List.insertionSort (· ≤ ·) nums).map (partName stem w)) := by
      have p1 : List.Perm (resolveParts listing) (listing.filter isPartName) :=
        List.perm_insertionSort LexLe _
      rw [hfilter] at p1
      exact p1.trans ((List.perm_insertionSort (· ≤ ·) nums).map (partName stem w)).symm
    have hs1 : List.Sorted LexLe (resolveParts listing) :=
      List.sorted_insertionSort LexLe _
    have hs2 : List.Sorted LexLe
        ((List.insertionSort (· ≤ ·) nums).map (partName stem w)) := by
      rw [List.Sorted, List.pairwise_map]
      refine hsortedNat.imp_of_mem ?_
      intro a b hma hmb hab
      exact lexLe_partName stem w a b (hmemS a hma) (hmemS b hmb) hab
    exact List.eq_of_perm_of_sorted hperm hs1 hs2
  have hlen : (resolveParts listing).length = nums.length := by
    rw [hmain, List.length_map, List.length_insertionSort]
  have hnums' : (resolveParts listing).map partNum?
      = (List.insertionSort (· ≤ ·) nums).map some := by
    rw [hmain, List.map_map]
    refine List.map_congr_left ?_
    intro n hn
    exact partNum_partName stem w n hstem hw (hmemS n hn)
  have hasc : List.Pairwise (· < ·) (List.insertionSort (· ≤ ·) nums) := by
    have hnd : (List.insertionSort (· ≤ ·) nums).Nodup :=
      ((List.perm_insertionSort (· ≤ ·) nums).nodup_iff).mpr hnodup
    refine (hsortedNat.and hnd).imp ?_
    intro a b hab
    exact lt_of_le_of_ne hab.1 hab.2
  exact ⟨hmain, hlen, hnums', hasc⟩

theorem runParts_ok_appends (ev : Nat → StepEvent) :
    ∀ (ps : List (List Char)) (r : UploadSession) (i : Nat),
    (∀ p ∈ ps, (partNum? p).isSome = true) →
    (∀ j, j < ps.length → ∃ e, ev (i + j) = StepEvent.ok e) →
    ((runParts ev r ps i).disk.partsField.getD []).length
        = (r.partsField.getD []).length + ps.length
    ∧ (runParts ev r ps i).disk.bucket = r.bucket
    ∧ (runParts ev r ps i).disk.key = r.key
    ∧ (runParts ev r ps i).disk.uploadId = r.uploadId
    ∧ (runParts ev r ps i).term = Termination.normal 0
  | [], r, i, _, _ => by simp [runParts]
  | p :: ps, r, i, hparse, hok => by
    obtain ⟨n, hn⟩ := Option.isSome_iff_exists.mp (hparse p (List.mem_cons_self p ps))
    obtain ⟨e, he⟩ := by
      have h0 := hok 0 (by simp)
      rwa [Nat.add_zero] at h0
    have ih := runParts_ok_appends ev ps (uploadAppend r n e) (i + 1)
      (fun q hq => hparse q (List.mem_cons_of_mem p hq))
      (fun j hj => by
        have h1 := hok (j + 1) (by simpa using Nat.succ_lt_succ hj)
        rw [show i + (j + 1) = i + 1 + j by omega] at h1
        exact h1)
    have hstep : runParts ev r (p :: ps) i =
        ⟨(runParts ev (uploadAppend r n e) ps (i + 1)).disk,
         (runParts ev (uploadAppend r n e) ps (i + 1)).calls + 1,
         (runParts ev (uploadAppend r n e) ps (i + 1)).term⟩ := by
      simp only [runParts, hn, he]
    rw [hstep]
    have happ : ((uploadAppend r n e).partsField.getD []).length
        = (r.partsField.getD []).length + 1 := by
      simp [uploadAppend]
    refine ⟨?_, ?_, ?_, ?_, ?_⟩
    · rw [ih.1, happ, List.length_cons]; omega
    · rw [ih.2.1]; rfl
    · rw [ih.2.2.1]; rfl
    · rw [ih.2.2.2.1]; rfl
    · exact ih.2.2.2.2

/-- Claim C1, amended: during `upload` every successful part transfer appends
its entry to the persisted record by re-load, mutate, re-save
(`uploadAppend` inside `runParts`).  For a run started from a freshly
initialized record (no `Parts` key), the on-disk record after part k's
append and before part k+1 begins — the loop run over the first k parts,
all of which succeed — holds exactly k completed parts, the record still
exists (the session is still ACTIVE), and bucket, key and uploadId are
unchanged.  As frozen the claim fails for a run resumed on a record that
already holds entries from an earlier interrupted run. -/
theorem upload_crash_after_k_parts
    (bk ky uid : List Char) (parts : List (List Char)) (ev : Nat → StepEvent) (kk : Nat)
    (hk : kk ≤ parts.length)
    (hparse : ∀ p ∈ parts.take kk, (partNum? p).isSome = true)
    (hok : ∀ i, i < kk → ∃ e, ev i = StepEvent.ok e) :
    (((runParts ev ⟨bk, ky, uid, none⟩ (parts.take kk) 0).disk.partsField.getD []).length = kk)
    ∧ statusOf (some (runParts ev ⟨bk, ky, uid, none⟩ (parts.take kk) 0).disk)
        = SessionStatus.ACTIVE
    ∧ (runParts ev ⟨bk, ky, uid, none⟩ (parts.take kk) 0).disk.bucket = bk
    ∧ (runParts ev ⟨bk, ky, uid, none⟩ (parts.take kk) 0).disk.key = ky
    ∧ (runParts ev ⟨bk, ky, uid, none⟩ (parts.take kk) 0).disk.uploadId = uid := by
  have hlen : (parts.take kk).length = kk := by
    rw [List.length_take]
    omega
  have h := runParts_ok_appends ev (parts.take kk) ⟨bk, ky, uid, none⟩ 0 hparse
    (fun j hj => by
      rw [Nat.zero_add]
      exact hok j (by rwa [hlen] at hj))
  refine ⟨?_, rfl, h.2.1, h.2.2.1, h.2.2.2.1⟩
  rw [h.1, hlen]
  simp

/-- Claim C4, amended: the part resolution selects exactly the directory
entries whose pathlib suffix begins with a dot followed by at least one
ASCII digit.  Because `re.match` anchors only at the start of the suffix,
trailing non-digit characters after the first digit do not exclude an
entry. -/
theorem selection_rule_iff (listing : List (List Char)) (name : List Char) :
    name ∈ resolveParts listing
      ↔ name ∈ listing
        ∧ ∃ c rest, pySuffix name = '.' :: c :: rest ∧ c.isDigit = true := by
  rw [resolveParts, List.mem_insertionSort, List.mem_filter]
  refine and_congr_right (fun _ => ?_)
  constructor
  · intro h
    rcases hps : pySuffix name with _ | ⟨c1, _ | ⟨c2, rest⟩⟩ <;>
      simp only [isPartName, hps, Bool.and_eq_true, beq_iff_eq] at h
    · exact absurd h (by simp)
    · exact absurd h (by simp)
    · exact ⟨c2, rest, by rw [h.1], h.2⟩
  · rintro ⟨c, rest, hps, hd⟩
    simp [isPartName, hps, hd]

/-- Claim C6: for `abort` and `finalize` against an ACTIVE session, a
confirming remote response (HTTP 204 for abort, HTTP 200 for finalize)
deletes the local record, and a non-confirming response leaves the local
record unchanged and reports the remote payload among the output. -/
theorem abort_finalize_remote_response_effects
    (bk ky uid : List Char) (pf : Option (List PartEntry)) (ps : List PartEntry)
    (resp : Resp) :
    (resp.status = 204 →
      (abortCmd (some ⟨bk, ky, uid, pf⟩) resp).store = none)
    ∧ (resp.status ≠ 204 →
      (abortCmd (some ⟨bk, ky, uid, pf⟩) resp).store = some ⟨bk, ky, uid, pf⟩
      ∧ resp.payload ∈ (abortCmd (some ⟨bk, ky, uid, pf⟩) resp).output)
    ∧ (resp.status = 200 →
      (finalizeCmd (some ⟨bk, ky, uid, some ps⟩) resp).store = none)
    ∧ (resp.status ≠ 200 →
      (finalizeCmd (some ⟨bk, ky, uid, some ps⟩) resp).store = some ⟨bk, ky, uid, some ps⟩
      ∧ resp.payload ∈ (finalizeCmd (some ⟨bk, ky, uid, some ps⟩) resp).output) := by
  refine ⟨?_, ?_, ?_, ?_⟩
  · intro h
    simp [abortCmd, h]
  · intro h
    constructor <;> simp [abortCmd, h]
  · intro h
    simp [finalizeCmd, h]
  · intro h
    constructor <;> simp [finalizeCmd, h]

/-- Claim C7: `upload`, `abort` and `finalize` invoked while no session
record exists all report the no-active-session message, exit with code 1,
and perform no remote call. -/
theorem no_active_session_rejects_without_remote_call
    (src : List Char) (isDir : Bool) (listing : List (List Char)) (confirm : Bool)
    (ev : Nat → StepEvent) (resp1 resp2 : Resp) :
    uploadCmd none src isDir listing confirm ev
        = ⟨none, Termination.normal 1, 0, [noActiveMsg]⟩
    ∧ abortCmd none resp1 = ⟨none, Termination.normal 1, 0, [noActiveMsg]⟩
    ∧ finalizeCmd none resp2 = ⟨none, Termination.normal 1, 0, [noActiveMsg]⟩ :=
  ⟨rfl, rfl, rfl⟩

/-- Claim C9: when the create-multipart-upload call throws, the exception
propagates out of `init` and the store is left exactly as it was — no local
session record is written.  The record is written only after the remote
call returns successfully (the success branch of `initCmd`). -/
theorem init_remote_failure_writes_nothing (bucket key : List Char)
    (store : Option UploadSession) :
    (initCmd bucket key store (Except.error ())).store = store
    ∧ (initCmd bucket key store (Except.error ())).term
        = Termination.exn PyExn.remoteError :=
  ⟨rfl, rfl⟩

/-- Claim C5, amended: `init` performs no existing-session check.  Invoked
while a record exists it is not rejected: on remote success it silently
overwrites whatever record is on disk with the new session (the behaviour
the spec flags as an open question). -/
theorem init_overwrites_existing_session (bucket key : List Char)
    (store : Option UploadSession) (ir : InitResp) :
    (initCmd bucket key store (Except.ok ir)).store = some (initRecord ir)
    ∧ (initCmd bucket key store (Except.ok ir)).term = Termination.normal 0 :=
  ⟨rfl, rfl⟩

/-- Claim C10: `init` writes the wholesale remote response, which has no
`Parts` key; `finalize` against exactly such a record raises `KeyError`
while reading the record (line 152), before the remote complete call, and
leaves the record in place. -/
theorem finalize_fresh_session_key_error (ir : InitResp) (resp : Resp)
    (bucket key : List Char) (store : Option UploadSession) :
    (initCmd bucket key store (Except.ok ir)).store = some (initRecord ir)
    ∧ (initRecord ir).partsField = none
    ∧ (finalizeCmd (some (initRecord ir)) resp).term = Termination.exn PyExn.keyError
    ∧ (finalizeCmd (some (initRecord ir)) resp).remoteCalls = 0
    ∧ (finalizeCmd (some (initRecord ir)) resp).store = some (initRecord ir) :=
  ⟨rfl, rfl, rfl, rfl, rfl⟩

/-- Claim C8, amended: the stored eTag is the returned ETag with its first
and last characters removed, unconditionally.  This coincides with
quote-stripping exactly when the ETag arrives wrapped in quotes: appending
a part whose returned ETag is a quoted body stores the bare body.  An
unquoted ETag is not stored unaltered. -/
theorem etag_quoted_stored_stripped (r : UploadSession) (n : Nat) (body : List Char) :
    (uploadAppend r n ('"' :: (body ++ ['"']))).partsField
      = some (r.partsField.getD [] ++ [⟨body, n⟩]) := by
  have hdrop : storedETag ('"' :: (body ++ ['"'])) = body := by
    rw [storedETag, List.drop_one, List.tail_cons, List.dropLast_concat]
  rw [uploadAppend, hdrop]

/-- Counterexample for claim C1 as frozen: a run of the `upload` loop
against a session record that already holds one completed part (itself
produced by an earlier interrupted run), terminated after its first
append, leaves a record with two completed parts, not one. -/
theorem upload_resume_append_counterexample :
    (((runParts (fun _ => StepEvent.ok (("E").toList))
        ((runParts (fun _ => StepEvent.ok (("E").toList))
          ⟨("b").toList, ("k").toList, ("u").toList, none⟩ [("x.1").toList] 0).disk)
        [("x.2").toList] 0).disk.partsField.getD []).length = 2)
    ∧ ¬ ((((runParts (fun _ => StepEvent.ok (("E").toList))
        ((runParts (fun _ => StepEvent.ok (("E").toList))
          ⟨("b").toList, ("k").toList, ("u").toList, none⟩ [("x.1").toList] 0).disk)
        [("x.2").toList] 0).disk.partsField.getD []).length = 1)) := by
  refine ⟨by decide, by decide⟩

/-- Counterexample for claim C3 as frozen: two part files with consistent
zero-padding (width 1) but distinct stems come back in descending numeric
part order, because the sort is lexicographic on the whole file name. -/
theorem resolver_distinct_stems_counterexample :
    (resolveParts [("b.1").toList, ("a.2").toList]).map partNum? = [some 2, some 1]
    ∧ (resolveParts [("b.1").toList, ("a.2").toList]).map partNum? ≠ [some 1, some 2] := by
  refine ⟨by decide, by decide⟩

/-- Counterexample for claim C4 as frozen: an entry whose extension starts
with a digit but continues with non-digit characters (`x.1a`) is selected
by the resolver, not ignored. -/
theorem selection_trailing_nondigit_counterexample :
    resolveParts [("x.1a").toList] = [("x.1a").toList]
    ∧ ("x.1a").toList ∈ resolveParts [("x.1a").toList] := by
  refine ⟨by decide, by decide⟩

/-- Counterexample for claim C5 as frozen: `init` invoked while an ACTIVE
record exists succeeds (exit code 0) and replaces the record rather than
rejecting the call. -/
theorem init_active_overwrite_counterexample :
    (initCmd ("b2").toList ("k2").toList
        (some ⟨("b1").toList, ("k1").toList, ("u1").toList, some [⟨("e").toList, 1⟩]⟩)
        (Except.ok ⟨("b2").toList, ("k2").toList, ("u2").toList⟩)).store
      = some ⟨("b2").toList, ("k2").toList, ("u2").toList, none⟩
    ∧ (initCmd ("b2").toList ("k2").toList
        (some ⟨("b1").toList, ("k1").toList, ("u1").toList, some [⟨("e").toList, 1⟩]⟩)
        (Except.ok ⟨("b2").toList, ("k2").toList, ("u2").toList⟩)).term
      = Termination.normal 0
    ∧ (some (⟨("b2").toList, ("k2").toList, ("u2").toList, none⟩ : UploadSession)
        ≠ some (⟨("b1").toList, ("k1").toList, ("u1").toList,
            some [⟨("e").toList, 1⟩]⟩ : UploadSession)) := by
  refine ⟨by decide, by decide, by decide⟩

/-- Counterexample for claim C8 as frozen: an ETag returned without wrapping
quotes (`abc`) is stored with its first and last characters removed (`b`),
not unaltered as the spec's quote-stripping rule would leave it. -/
theorem etag_unquoted_counterexample :
    (uploadAppend ⟨("b").toList, ("k").toList, ("u").toList, none⟩ 1
        (("abc").toList)).partsField = some [⟨("b").toList, 1⟩]
    ∧ specStripQuotes (("abc").toList) = ("abc").toList
    ∧ ((("b").toList : List Char) ≠ ("abc").toList) := by
  refine ⟨by decide, by decide, by decide⟩

/-- Claim C2 is violated by the code: when `abort` or `finalize` receives a
delivered remote response with a non-success status (here 500), the
command prints `Bad HTTP response` plus the payload and returns normally,
so the process exit code is 0, not non-zero; the record is kept. -/
theorem remote_reject_exit_code_zero :
    (abortCmd (some ⟨("b").toList, ("k").toList, ("u").toList, none⟩)
        ⟨500, ("body").toList⟩).term.exitCode = 0
    ∧ (abortCmd (some ⟨("b").toList, ("k").toList, ("u").toList, none⟩)
        ⟨500, ("body").toList⟩).store
        = some ⟨("b").toList, ("k").toList, ("u").toList, none⟩
    ∧ (finalizeCmd (some ⟨("b").toList, ("k").toList, ("u").toList,
        some [⟨("e").toList, 1⟩]⟩) ⟨500, ("body").toList⟩).term.exitCode = 0 := by
  refine ⟨by decide, by decide, by decide⟩

/-- Witness for the amended claim C1 at a concrete input: two parts, both
transfers succeeding, crash after the second append. -/
theorem upload_crash_after_k_parts_witness :
    (2 ≤ ([("p.1").toList, ("p.2").toList] : List (List Char)).length)
    ∧ (∀ p ∈ ([("p.1").toList, ("p.2").toList] : List (List Char)).take 2,
        (partNum? p).isSome = true)
    ∧ (∀ i, i < 2 → ∃ e, (fun _ : Nat => StepEvent.ok (("Q").toList)) i = StepEvent.ok e)
    ∧ (((runParts (fun _ : Nat => StepEvent.ok (("Q").toList))
        ⟨("b").toList, ("k").toList, ("u").toList, none⟩
        (([("p.1").toList, ("p.2").toList] : List (List Char)).take 2) 0).disk.partsField.getD
          []).length = 2) :=
  ⟨by decide, by decide, fun _ _ => ⟨("Q").toList, rfl⟩,
    (upload_crash_after_k_parts ("b").toList ("k").toList ("u").toList
      [("p.1").toList, ("p.2").toList] (fun _ => StepEvent.ok (("Q").toList)) 2
      (by decide) (by decide) (fun _ _ => ⟨("Q").toList, rfl⟩)).1⟩

/-- Witness for the amended claim C3 at a concrete directory: stem `p`,
width 2, numbers 2, 1, 10, plus a non-matching `readme` entry. -/
theorem resolver_padded_common_stem_sorted_witness :
    ((("p").toList : List Char) ≠ [])
    ∧ (0 < 2)
    ∧ (∀ n ∈ ([2, 1, 10] : List Nat), n < 10 ^ 2)
    ∧ ([2, 1, 10] : List Nat).Nodup
    ∧ ([("p.02").toList, ("readme").toList, ("p.01").toList, ("p.10").toList].filter isPartName
        = ([2, 1, 10] : List Nat).map (partName (("p").toList) 2))
    ∧ resolveParts [("p.02").toList, ("readme").toList, ("p.01").toList, ("p.10").toList]
        = (List.insertionSort (· ≤ ·) [2, 1, 10]).map (partName (("p").toList) 2) :=
  ⟨by decide, by decide, by decide, by decide, by decide,
    (resolver_padded_common_stem_sorted
      [("p.02").toList, ("readme").toList, ("p.01").toList, ("p.10").toList]
      (("p").toList) 2 [2, 1, 10] (by decide) (by decide) (by decide) (by decide)
      (by decide)).1⟩

/-- Witness for claim C6, discharging each status hypothesis at concrete
responses: 204 and 500 for abort, 200 and 500 for finalize. -/
theorem abort_finalize_remote_response_effects_witness :
    (abortCmd (some ⟨("b").toList, ("k").toList, ("u").toList, none⟩)
        ⟨204, ("pay").toList⟩).store = none
    ∧ (abortCmd (some ⟨("b").toList, ("k").toList, ("u").toList, none⟩)
        ⟨500, ("pay").toList⟩).store
        = some ⟨("b").toList, ("k").toList, ("u").toList, none⟩
    ∧ (finalizeCmd (some ⟨("b").toList, ("k").toList, ("u").toList, some []⟩)
        ⟨200, ("pay").toList⟩).store = none
    ∧ ("pay").toList ∈ (finalizeCmd (some ⟨("b").toList, ("k").toList, ("u").toList, some []⟩)
        ⟨500, ("pay").toList⟩).output :=
  ⟨(abort_finalize_remote_response_effects (("b").toList) (("k").toList) (("u").toList)
      none [] ⟨204, ("pay").toList⟩).1 rfl,
   ((abort_finalize_remote_response_effects (("b").toList) (("k").toList) (("u").toList)
      none [] ⟨500, ("pay").toList⟩).2.1 (by decide)).1,
   (abort_finalize_remote_response_effects (("b").toList) (("k").toList) (("u").toList)
      none [] ⟨200, ("pay").toList⟩).2.2.1 rfl,
   ((abort_finalize_remote_response_effects (("b").toList) (("k").toList) (("u").toList)
      none [] ⟨500, ("pay").toList⟩).2.2.2 (by decide)).2⟩
